import Mathlib

/-!
Verification of the `aviator` PNR segment parser (src/aviator.py).

This file is a shallow embedding of the core pipeline of `aviator.py`:
the per-line segment parser (`parse_segment_line`), the date/time helpers
(`parse_date`, `pick_times`), the time-zone aware overnight correction,
the Russian plural/duration formatting (`plural_ru`, `human_duration`) and
the itinerary assembler (`build_itinerary`).

Modelling conventions:
- Python strings are `List Char` (named `PyStr`); the regexes of the source
  are translated into explicit character-list matchers with the exact
  greedy/backtracking semantics of the original patterns.
- Python `datetime` values are minutes on an absolute timeline
  (`civil day number * 1440 + hour * 60 + minute`); a possibly
  timezone-aware datetime is a wall-clock minute count together with an
  optional fixed UTC offset (`PyDT`).  The external IANA zone database
  (the `airportsdata`/`pytz` collaborators, outside the repository) is
  modelled as a lookup returning a fixed UTC offset in minutes.
- Python exceptions are the `Except String` monad: code paths of the source
  that raise an uncaught exception are `.error`, the normal returns are
  `.ok`; `None` returns of the source are `Option.none` inside `.ok`.
- External lookup collaborators (airport database, RU display-name
  overrides) are parameters of the pipeline (`Env`).
-/

/-- Python strings, embedded as lists of characters. -/
abbrev PyStr := List Char

/-- Convert a Lean string literal to the `PyStr` embedding. -/
def str (s : String) : PyStr := s.data

/-- The whitespace class of Python (`str.split`, `str.strip`, regex `\s`),
restricted to the ASCII whitespace characters. -/
def isSpaceChar (c : Char) : Bool :=
  c = ' ' || c = '\t' || c = '\n' || c = '\r' || c = '\x0b' || c = '\x0c'

/-- The line-break characters recognized by Python `str.splitlines`. -/
def isLineBreak (c : Char) : Bool :=
  c = '\n' || c = '\r' || c = '\x0b' || c = '\x0c' || c = '\x1c' ||
  c = '\x1d' || c = '\x1e' || c = '\x85' || c = '\u2028' || c = '\u2029'

/-- Python `str.strip()` (trim whitespace at both ends). -/
def strip (s : PyStr) : PyStr :=
  ((s.dropWhile isSpaceChar).reverse.dropWhile isSpaceChar).reverse

/-- Python `str.upper()` (ASCII uppercasing; the tokens handled by the
parser are ASCII). -/
def upper (s : PyStr) : PyStr := s.map Char.toUpper

/-- Helper bound: dropping a matched run never lengthens a list. -/
theorem length_dropWhile_le (p : α → Bool) (l : List α) :
    (l.dropWhile p).length ≤ l.length := by
  induction l with
  | nil => simp
  | cons a l ih =>
    by_cases h : p a
    · simp [List.dropWhile, h]; omega
    · simp [List.dropWhile, h]

/-- Worker of `tokenize`: accumulates the current word (reversed) and
flushes it at each whitespace character. -/
def tokenizeGo : PyStr → PyStr → List PyStr
  | [], acc => if acc = [] then [] else [acc.reverse]
  | c :: rest, acc =>
    if isSpaceChar c then
      (if acc = [] then tokenizeGo rest [] else acc.reverse :: tokenizeGo rest [])
    else tokenizeGo rest (c :: acc)

/-- Python `str.split()` with no separator: split on whitespace runs,
discarding empty pieces. -/
def tokenize (s : PyStr) : List PyStr := tokenizeGo s []

/-- Worker of `splitLines`: accumulates the current line (reversed) and
flushes it at each line break; a pending nonempty accumulator is flushed
at the end, a trailing break leaves nothing to flush. -/
def splitLinesGo : PyStr → PyStr → List PyStr
  | [], acc => if acc = [] then [] else [acc.reverse]
  | '\r' :: '\n' :: rest, acc => acc.reverse :: splitLinesGo rest []
  | c :: rest, acc =>
    if isLineBreak c then acc.reverse :: splitLinesGo rest []
    else splitLinesGo rest (c :: acc)

/-- Python `str.splitlines()`: split on the line-break characters, with
`\r\n` counting as a single break and no empty final piece after a
trailing break. -/
def splitLines (s : PyStr) : List PyStr := splitLinesGo s []

/-- Python `"\n".join(...)`. -/
def joinLines : List PyStr → PyStr
  | [] => []
  | [l] => l
  | l :: ls => l ++ '\n' :: joinLines ls

/-- Python `int(...)` on a string of decimal digits. -/
def pyInt (s : PyStr) : Nat :=
  s.foldl (fun a c => a * 10 + (c.toNat - '0'.toNat)) 0

/-- Fuel-driven worker of `natStr`; `fuel ≥ n` always suffices because the
quotient chain `n, n/10, n/100, ...` reaches a one-digit number within `n`
steps. -/
def natStrGo : Nat → Nat → PyStr
  | _, 0 => ['0']
  | 0, _ => []
  | fuel + 1, n =>
    if n < 10 then [Nat.digitChar n]
    else natStrGo fuel (n / 10) ++ [Nat.digitChar (n % 10)]

/-- Decimal rendering of a natural number (Python `str(n)` / f-string
interpolation of a nonnegative int). -/
def natStr (n : Nat) : PyStr := natStrGo n n

/-- The character class `[A-Z0-9]` of the airline-code regexes. -/
def isUpperAlnum (c : Char) : Bool := c.isUpper || c.isDigit

/-- `SEGMENT_START_RE = ^\s*\d+\s+` (anchored prefix match, aviator.py
line 41): optional leading whitespace, then one or more digits, then at
least one whitespace character. -/
def matchSegStart (l : PyStr) : Bool :=
  let r := l.dropWhile isSpaceChar
  let ds := r.takeWhile Char.isDigit
  !ds.isEmpty &&
    (match r.drop ds.length with
     | c :: _ => isSpaceChar c
     | [] => false)

/-- `TIME_RE = ^\d{4}(\+\d+)?$` (aviator.py line 40): a 4-digit time,
optionally followed by `+` and one or more digits. -/
def matchTime (t : PyStr) : Bool :=
  (t.take 4).length = 4 && (t.take 4).all Char.isDigit &&
    (match t.drop 4 with
     | [] => true
     | '+' :: rest => !rest.isEmpty && rest.all Char.isDigit
     | _ => false)

/-- The date-token test `^\d{2}[A-Z]{3}$` of `parse_segment_line`
(aviator.py line 303). -/
def matchDate (c : PyStr) : Bool :=
  c.length = 5 && (c.take 2).all Char.isDigit && (c.drop 2).all Char.isUpper

/-!  ## Date arithmetic (`datetime` essentials) -/

/-- Gregorian leap-year test (as used by `datetime`). -/
def isLeap (y : Nat) : Bool := (y % 4 = 0 && !(y % 100 = 0)) || y % 400 = 0

/-- Number of days of month `m` (1-12) in year `y`. -/
def daysInMonth (y m : Nat) : Nat :=
  if m = 2 then (if isLeap y then 29 else 28)
  else if m = 4 || m = 6 || m = 9 || m = 11 then 30
  else 31

/-- The civil day number of a Gregorian date (days since the proleptic
era reference), encoding `datetime`'s calendar date as an absolute day
count so that adding `timedelta(days=1)` is `+1`. -/
def civilToDays (y m d : Nat) : Nat :=
  let y2 := if m ≤ 2 then y - 1 else y
  let era := y2 / 400
  let yoe := y2 % 400
  let mp := (m + 9) % 12
  let doy := (153 * mp + 2) / 5 + d - 1
  let doe := yoe * 365 + yoe / 4 - yoe / 100 + doy
  era * 146097 + doe

/-- The three-letter month map of `parse_date` (aviator.py lines 192-195);
the `strptime` branch recognizes the same twelve abbreviations. -/
def month_num (mon : PyStr) : Option Nat :=
  if mon = str "JAN" then some 1 else if mon = str "FEB" then some 2
  else if mon = str "MAR" then some 3 else if mon = str "APR" then some 4
  else if mon = str "MAY" then some 5 else if mon = str "JUN" then some 6
  else if mon = str "JUL" then some 7 else if mon = str "AUG" then some 8
  else if mon = str "SEP" then some 9 else if mon = str "OCT" then some 10
  else if mon = str "NOV" then some 11 else if mon = str "DEC" then some 12
  else none

/-- `parse_date` (aviator.py lines 184-198).  The `strptime("%d%b")`
attempt succeeds exactly for a recognized month with a day valid in 1900
(then `replace(year=...)` installs the caller's year); the fallback branch
raises `ValueError("Unknown month: ...")` for an unrecognized month and
lets `datetime(year, month, day)` raise for an out-of-range day or year.
Net effect: unknown month or invalid day/year is an uncaught exception
(`.error`), otherwise the civil day number of the date. -/
def parse_date (date_str : PyStr) (year : Int) : Except String Int :=
  let ds := upper (strip date_str)
  let day := pyInt (ds.take 2)
  let mon := upper (ds.drop 2)
  match month_num mon with
  | none => .error ("Unknown month: " ++ String.mk mon)
  | some m =>
    if year < 1 || 9999 < year then .error "year is out of range"
    else if 1 ≤ day && day ≤ daysInMonth year.toNat m then
      .ok (civilToDays year.toNat m day)
    else .error "day is out of range for month"

/-- Injection of `Except` into a sum type, used to derive decidable
equality for results of the embedded fallible functions. -/
def exceptToSum : Except ε α → ε ⊕ α
  | .error e => .inl e
  | .ok a => .inr a

theorem exceptToSum_injective {ε : Type u} {α : Type v} :
    Function.Injective (@exceptToSum ε α) := by
  intro a b h
  cases a <;> cases b <;> simp [exceptToSum] at h <;> simp [h]

instance [DecidableEq ε] [DecidableEq α] : DecidableEq (Except ε α) :=
  fun a b => decidable_of_iff _ exceptToSum_injective.eq_iff

-- concrete sanity checks of the date/tokenizer embedding
example : tokenize (str "  1 KC  921Y ") = [str "1", str "KC", str "921Y"] := by decide
example : matchSegStart (str " 12 x") = true := by decide
example : matchSegStart (str "H1DM.77E8*ANZ 0155/27FEB26") = false := by decide
example : matchTime (str "0435+1") = true := by decide
example : matchTime (str "043") = false := by decide
example : matchTime (str "0435+") = false := by decide
example : matchDate (str "15MAR") = true := by decide
example : parse_date (str "29FEB") 2026 = .error "day is out of range for month" := by decide
example : (parse_date (str "29FEB") 2028).isOk = true := by decide
example : natStr 1045 = str "1045" := by decide
example : splitLines (str "a\nb\n") = [str "a", str "b"] := by decide
example : splitLines (str "") = [] := by decide
example : splitLines (str "\n") = [[]] := by decide

/-!  ## Airline / flight / route / time extraction -/

/-- One backtracking attempt of the merged-token regex
`^([A-Z0-9]{2,3})(\d{1,4})` with the first group bound to exactly `k`
characters: the first `k` characters must be in `[A-Z0-9]` and the second
group takes greedily up to 4 (at least 1) digits right after them. -/
def merged_at (k : Nat) (t : PyStr) : Option (PyStr × PyStr) :=
  if (t.take k).length = k && (t.take k).all isUpperAlnum &&
     !(((t.drop k).takeWhile Char.isDigit).take 4).isEmpty then
    some (t.take k, ((t.drop k).takeWhile Char.isDigit).take 4)
  else none

/-- `re.match(r"^([A-Z0-9]{2,3})(\d{1,4})", t)` (aviator.py line 280): the
greedy quantifier `{2,3}` tries 3 characters first and backtracks to 2
only when no digit follows. -/
def merged_match (t : PyStr) : Option (PyStr × PyStr) :=
  match merged_at 3 t with
  | some r => some r
  | none => merged_at 2 t

/-- `re.match(r"^(\d{1,4})", t)` (aviator.py line 288): greedily up to 4
leading digits, at least one. -/
def leading_digits (t : PyStr) : Option PyStr :=
  if ((t.takeWhile Char.isDigit).take 4).isEmpty then none
  else some ((t.takeWhile Char.isDigit).take 4)

/-- The airline/flight detection of `parse_segment_line` (aviator.py
lines 272-296) on the uppercased tokens 1 and 2: Case 1 (merged, e.g.
`TK1921`) applies when the merged regex matches and the matched prefix is
shorter than the whole token, and sets the scan cursor to 2; otherwise
Case 2 (split, e.g. `TK 351`) requires token 1 to be a full 2-3 character
`[A-Z0-9]` code and token 2 to start with digits, and sets the cursor
to 3.  `none` is the `return None` rejection.  `airline_flight_split` is
the Case 2 body (aviator.py lines 286-296). -/
def airline_flight_split (t1 t2 : PyStr) : Option (PyStr × PyStr × Nat) :=
  if (t1.length = 2 || t1.length = 3) && t1.all isUpperAlnum then
    match leading_digits t2 with
    | some d => some (t1, d, 3)
    | none => none
  else none

/-- Combined airline/flight detection: the merged probe, falling back to
the split case exactly as the `if m1 and len(...) > len(...)` / `else`
structure of the source. -/
def airline_flight (t1 t2 : PyStr) : Option (PyStr × PyStr × Nat) :=
  match merged_match t1 with
  | some (g1, g2) =>
    if g1.length < t1.length then some (g1, g2, 2)
    else airline_flight_split t1 t2
  | none => airline_flight_split t1 t2

/-- Date-token scan of `parse_segment_line` (aviator.py lines 298-308),
walking the uppercased tokens from the cursor and returning the first
token of shape `\d{2}[A-Z]{3}` with its index. -/
def find_date_go : List PyStr → Nat → Option (PyStr × Nat)
  | [], _ => none
  | t :: rest, i =>
    if matchDate (upper t) then some (upper t, i) else find_date_go rest (i + 1)

/-- `find_date toks cursor` = the scan `for i in range(cursor, len(tokens))`
of aviator.py lines 301-306. -/
def find_date (toks : List PyStr) (cursor : Nat) : Option (PyStr × Nat) :=
  find_date_go (toks.drop cursor) cursor

/-- Route-token scan of `parse_segment_line` (aviator.py lines 310-321):
the first token after the date token whose first six characters (of the
uppercased token) are letters `A`-`Z` yields origin (first 3) and
destination (next 3). -/
def find_route_go : List PyStr → Option (PyStr × PyStr)
  | [] => none
  | t :: rest =>
    if ((upper t).take 6).length = 6 && ((upper t).take 6).all Char.isUpper then
      some (((upper t).take 6).take 3, ((upper t).take 6).drop 3)
    else find_route_go rest

/-- `find_route toks start` = the scan `for i in range(date_idx + 1, ...)`
of aviator.py lines 312-318. -/
def find_route (toks : List PyStr) (start : Nat) : Option (PyStr × PyStr) :=
  find_route_go (toks.drop start)

/-- The arrival-token split of `pick_times` (aviator.py lines 219-224):
`HHMM+N` is divided at the first `+` into the wall time and the integer
day offset; no `+` means offset 0. -/
def split_arr (raw : PyStr) : PyStr × Nat :=
  if raw.contains '+' then
    (raw.takeWhile (fun c => c ≠ '+'),
     pyInt ((raw.dropWhile (fun c => c ≠ '+')).drop 1))
  else (raw, 0)

/-- `pick_times` (aviator.py lines 201-226): collect the stripped tokens
matching `TIME_RE` anywhere in the line; fewer than two is rejection; the
first is the departure (first 4 digits kept), the second the arrival
(wall time and day offset via `split_arr`). -/
def pick_times (tokens : List PyStr) : Option (PyStr × PyStr × Nat) :=
  let times := (tokens.map strip).filter matchTime
  match times with
  | dep :: arr_raw :: _ =>
    let (arr, off) := split_arr arr_raw
    some (dep.take 4, arr.take 4, off)
  | _ => none

/-!  ## Timezone-aware datetimes and the overnight correction -/

/-- A Python `datetime` as used by the parser: wall-clock minutes on the
civil timeline plus an optional fixed UTC offset in minutes (`none` =
naive datetime, `some o` = the result of `tz.localize` for a zone of UTC
offset `o`). -/
structure PyDT where
  wall : Int
  off : Option Int
deriving DecidableEq, Repr, Inhabited

/-- The absolute (UTC) instant of a datetime: `astimezone(pytz.UTC)` for
an aware value; for naive values Python compares/subtracts wall clocks,
which coincides with `wall - 0`. -/
def instantUtc (d : PyDT) : Int := d.wall - d.off.getD 0

/-- Python comparison/subtraction of two datetimes raises `TypeError`
unless both are naive or both are aware; the difference (in minutes) is
the difference of absolute instants. -/
def dtSub (a b : PyDT) : Except String Int :=
  if a.off.isSome = b.off.isSome then .ok (instantUtc a - instantUtc b)
  else .error "TypeError: cannot subtract offset-naive and offset-aware datetimes"

/-- One pass of the overnight-correction loop of `parse_segment_line`
(aviator.py lines 355-357), driven by fuel: while the arrival's UTC
instant is before the departure's, add one calendar day (1440 wall
minutes) to the arrival.  `bump_loop` supplies fuel that always suffices
(each iteration raises the arrival's UTC instant by exactly 1440);
`c4_overnight_loop_terminates` proves the guard is false at the result. -/
def bump_go : Nat → Int → Int → Int → Int
  | 0, _, _, arr => arr
  | fuel + 1, dep_utc, off, arr =>
    if arr - off < dep_utc then bump_go fuel dep_utc off (arr + 1440) else arr

/-- The overnight-correction loop (aviator.py lines 355-357): arguments
are the departure UTC instant, the arrival zone's UTC offset, and the
arrival wall clock; result is the corrected arrival wall clock. -/
def bump_loop (dep_utc off arr : Int) : Int :=
  bump_go ((dep_utc - (arr - off)).toNat / 1440 + 1) dep_utc off arr

/-- Lines 337-357 of aviator.py: when either zone is unknown, keep naive
timestamps and advance the arrival one day only for a zero parsed offset
with arrival before departure; when both zones resolve, localize both
and run the UTC-comparison loop on the arrival. -/
def fix_times (tz_from tz_to : Option Int) (dep_naive arr_naive : Int)
    (arr_offset : Nat) : PyDT × PyDT :=
  match tz_from, tz_to with
  | some o1, some o2 =>
    (⟨dep_naive, some o1⟩, ⟨bump_loop (dep_naive - o1) o2 arr_naive, some o2⟩)
  | _, _ =>
    let arr2 := if arr_offset = 0 ∧ arr_naive < dep_naive
                then arr_naive + 1440 else arr_naive
    (⟨dep_naive, none⟩, ⟨arr2, none⟩)

/-!  ## Segments and the per-line parser -/

/-- The `Segment` dataclass (aviator.py lines 54-63). -/
structure Segment where
  airline : PyStr
  flight : PyStr
  date_str : PyStr
  origin : PyStr
  dest : PyStr
  dep_local : PyDT
  arr_local : PyDT
  airline_name : PyStr
deriving DecidableEq, Repr, Inhabited

/-- `airline_name` (aviator.py lines 140-147): the small built-in carrier
dictionary, empty string when unknown. -/
def airline_name_of (iata2 : PyStr) : PyStr :=
  let k := upper iata2
  if k = str "KC" then str "Air Astana"
  else if k = str "LH" then str "Lufthansa"
  else if k = str "TK" then str "Turkish Airlines"
  else if k = str "UA" then str "United Airlines"
  else []

/-- `parse_segment_line` (aviator.py lines 257-368), parameterized by the
external airport-to-zone lookup `tz` (IATA code, uppercase, to fixed UTC
offset in minutes).  `.ok none` is the silent `return None` rejection;
`.error` is an uncaught exception escaping the function: `parse_date`
raising, or `datetime.replace` raising `ValueError` for an hour above 23
or a minute above 59 in either HHMM token (lines 331-332; `TIME_RE`
accepts any four digits, so e.g. `9999` reaches `replace` and raises). -/
def parse_segment_line (tz : PyStr → Option Int) (line : PyStr)
    (year : Int) : Except String (Option Segment) :=
  if matchSegStart line = false then .ok none else
  let tokens := tokenize (strip line)
  if tokens.length < 6 then .ok none else
  let t1 := upper (tokens.getD 1 [])
  let t2 := upper (tokens.getD 2 [])
  match airline_flight t1 t2 with
  | none => .ok none
  | some (airline, flight_no, cursor) =>
    match find_date tokens cursor with
    | none => .ok none
    | some (date_str, date_idx) =>
      match find_route tokens (date_idx + 1) with
      | none => .ok none
      | some (origin, dest) =>
        match pick_times tokens with
        | none => .ok none
        | some (dep_hhmm, arr_hhmm, arr_offset) =>
          match parse_date date_str year with
          | .error e => .error e
          | .ok base_day =>
            if 23 < pyInt (dep_hhmm.take 2) || 59 < pyInt (dep_hhmm.drop 2) then
              .error "hour/minute is out of range in departure time"
            else if 23 < pyInt (arr_hhmm.take 2) || 59 < pyInt (arr_hhmm.drop 2) then
              .error "hour/minute is out of range in arrival time"
            else
            let dep_naive : Int :=
              base_day * 1440 + pyInt (dep_hhmm.take 2) * 60 + pyInt (dep_hhmm.drop 2)
            let arr_naive : Int :=
              base_day * 1440 + pyInt (arr_hhmm.take 2) * 60 + pyInt (arr_hhmm.drop 2)
                + 1440 * (arr_offset : Int)
            let locs := fix_times (tz origin) (tz dest) dep_naive arr_naive arr_offset
            .ok (some { airline := airline, flight := flight_no,
                        date_str := date_str, origin := origin, dest := dest,
                        dep_local := locs.1, arr_local := locs.2,
                        airline_name := airline_name_of airline })

/-- The empty zone lookup: no airport resolves (all parses take the naive
fallback path). -/
def tzEmpty : PyStr → Option Int := fun _ => none

/-- Project the parsed segment out of a parser result (for stating
concrete evaluations); `default` on rejection or exception. -/
def segOfResult (r : Except String (Option Segment)) : Segment :=
  match r with
  | .ok (some s) => s
  | _ => default

/-!  ## Formatting: plurals, durations, dates, clock times -/

/-- `plural_ru` (aviator.py lines 153-162): Russian grammatical-number
selection on the absolute value of the count. -/
def plural_ru (n : Int) (form1 form2 form5 : PyStr) : PyStr :=
  let m := n.natAbs
  if 11 ≤ m % 100 ∧ m % 100 ≤ 14 then form5
  else
    let last := m % 10
    if last = 1 then form1
    else if 2 ≤ last ∧ last ≤ 4 then form2
    else form5

/-- `human_duration` (aviator.py lines 165-178) on a timedelta given in
whole minutes: absolute value, split into hours and minutes, hour part
omitted when zero, minute part kept when hours are zero. -/
def human_duration (tdMinutes : Int) : PyStr :=
  let total := tdMinutes.natAbs * 60
  let hours := total / 3600
  let minutes := total % 3600 / 60
  let parts : List PyStr :=
    (if 0 < hours then
      [natStr hours ++ ' ' :: plural_ru hours (str "час") (str "часа") (str "часов")]
     else []) ++
    (if 0 < minutes || hours = 0 then
      [natStr minutes ++ ' ' :: plural_ru minutes (str "минуту") (str "минуты") (str "минут")]
     else [])
  List.intercalate (str ", ") parts

/-- The `RU_MONTH` display dictionary (aviator.py lines 44-48) with the
`dict.get(mon, mon)` fallback of `format_date_ru`. -/
def ru_month (mon : PyStr) : PyStr :=
  if mon = str "JAN" then str "янв." else if mon = str "FEB" then str "февр."
  else if mon = str "MAR" then str "мар." else if mon = str "APR" then str "апр."
  else if mon = str "MAY" then str "мая" else if mon = str "JUN" then str "июн."
  else if mon = str "JUL" then str "июл." else if mon = str "AUG" then str "авг."
  else if mon = str "SEP" then str "сент." else if mon = str "OCT" then str "окт."
  else if mon = str "NOV" then str "нояб." else if mon = str "DEC" then str "дек."
  else mon

/-- `format_date_ru` (aviator.py lines 374-378): strip leading zeros from
the two-digit day and render the Russian month abbreviation. -/
def format_date_ru (date_str : PyStr) : PyStr :=
  let ds := upper (strip date_str)
  let day := (ds.take 2).dropWhile (fun c => c = '0')
  let mon := upper (ds.drop 2)
  day ++ ' ' :: ru_month mon

/-- Two-digit zero-padded rendering (the `%H` / `%M` fields of
`strftime`). -/
def pad2 (n : Nat) : PyStr := if n < 10 then '0' :: natStr n else natStr n

/-- `strftime('%H:%M')` on an embedded datetime: the wall-clock hour and
minute of the day. -/
def fmtHM (d : PyDT) : PyStr :=
  pad2 ((d.wall % 1440) / 60).toNat ++ ':' :: pad2 ((d.wall % 60)).toNat

/-!  ## External lookups and the itinerary assembler -/

/-- The external lookup collaborators, injected into the pipeline: the
IATA-to-UTC-offset zone lookup (`airportsdata` + `pytz`), the RU
display-name override table, and the airport city table.  All are
read-only data loaded outside the core. -/
structure Env where
  tz : PyStr → Option Int
  ru : PyStr → Option PyStr
  city : PyStr → Option PyStr

/-- `place_for_iata` (aviator.py lines 234-251): RU override if present
and non-empty, else the airports-database city if present and non-empty,
else the bare IATA code. -/
def place_for_iata (env : Env) (iata : PyStr) : PyStr :=
  match env.ru (upper iata) with
  | some ov => if ov ≠ [] then ov else
      match env.city (upper iata) with
      | some c => if c ≠ [] then c else upper iata
      | none => upper iata
  | none =>
      match env.city (upper iata) with
      | some c => if c ≠ [] then c else upper iata
      | none => upper iata

/-- The f-string of the segment line (aviator.py lines 410-414); `dur` is
the already-computed leg duration in minutes. -/
def segment_line (env : Env) (s : Segment) (dur : Int) : PyStr :=
  str "🗓️" ++ format_date_ru s.date_str ++ ' ' :: fmtHM s.dep_local ++
  str " – " ++ fmtHM s.arr_local ++ str ", " ++
  place_for_iata env s.origin ++ str " — " ++ place_for_iata env s.dest ++
  str ", " ++ s.airline ++ ' ' :: s.flight ++
  (if s.airline_name ≠ [] then str ", " ++ s.airline_name else []) ++
  str ". " ++ human_duration dur

/-- The layover line (aviator.py line 405). -/
def layover_line (lay : Int) : PyStr :=
  str "_Пересадка " ++ human_duration lay ++ str "_"

/-- The lines emitted for one segment of the assembler loop (aviator.py
lines 401-414): when a previous arrival exists and the gap to this
departure is strictly positive, a layover line precedes the segment
line. -/
def render_entry (env : Env) (prevArr : Option PyDT) (s : Segment) :
    Except String (List PyStr) :=
  match prevArr with
  | none =>
    match dtSub s.arr_local s.dep_local with
    | .error e => .error e
    | .ok dur => .ok [segment_line env s dur]
  | some pa =>
    match dtSub s.dep_local pa with
    | .error e => .error e
    | .ok lay =>
      match dtSub s.arr_local s.dep_local with
      | .error e => .error e
      | .ok dur =>
        .ok ((if 0 < lay then [layover_line lay] else []) ++
             [segment_line env s dur])

/-- The assembler loop over the sorted segments (aviator.py lines
399-416), threading the previous arrival. -/
def render_all (env : Env) :
    Option PyDT → List Segment → Except String (List PyStr)
  | _, [] => .ok []
  | prevArr, s :: rest =>
    match render_entry env prevArr s with
    | .error e => .error e
    | .ok entry =>
      match render_all env (some s.arr_local) rest with
      | .error e => .error e
      | .ok r => .ok (entry ++ r)

/-- Stable insertion of a segment into a list sorted by departure
instant: the new element goes after every element whose key is less than
or equal to its own (so elements with equal keys keep their original
relative order, as in Python's stable sort). -/
def insert_by_dep (a : Segment) : List Segment → List Segment
  | [] => [a]
  | b :: t =>
    if instantUtc b.dep_local ≤ instantUtc a.dep_local then
      b :: insert_by_dep a t
    else a :: b :: t

/-- Stable sort by departure instant (insertion sort).  Python's
`list.sort` is a stable sort by the key, and the output of a stable sort
is uniquely determined by the key order and the original order of ties,
so this is extensionally the sort performed at aviator.py line 396. -/
def sort_by_dep (l : List Segment) : List Segment :=
  l.foldl (fun acc s => insert_by_dep s acc) []

/-- `segments.sort(key=lambda s: s.dep_local)` (aviator.py line 396):
Python's stable sort compares the departure datetimes and raises
`TypeError` as soon as a naive and an aware datetime are compared, which
happens exactly when both kinds are present in a list of two or more. -/
def sort_segments (segs : List Segment) : Except String (List Segment) :=
  if 2 ≤ segs.length &&
     !(segs.all (fun s => s.dep_local.off.isSome)) &&
     !(segs.all (fun s => s.dep_local.off.isNone)) then
    .error "TypeError: cannot compare offset-naive and offset-aware datetimes"
  else
    .ok (sort_by_dep segs)

/-- Parse every (stripped-nonempty) line, keeping the successfully parsed
segments (aviator.py lines 388-391); an exception from any line aborts
the whole run. -/
def collect_segments (tz : PyStr → Option Int) (year : Int) :
    List PyStr → Except String (List Segment)
  | [] => .ok []
  | l :: rest =>
    match parse_segment_line tz l year with
    | .error e => .error e
    | .ok seg =>
      match collect_segments tz year rest with
      | .error e => .error e
      | .ok tail =>
        match seg with
        | some s => .ok (s :: tail)
        | none => .ok tail

/-- The no-segments message (aviator.py line 394). -/
def msgNoSegments : PyStr := str "⚠️ Сегменты не распознаны."

/-- `build_itinerary` (aviator.py lines 381-418) with the year supplied
explicitly by the caller: split the text into nonblank lines, parse each,
return the dedicated message when nothing parsed, otherwise sort by
departure and render segment and layover lines joined by newlines. -/
def build_itinerary (env : Env) (text : PyStr) (year : Int) :
    Except String PyStr :=
  match collect_segments env.tz year
          ((splitLines text).filter (fun l => strip l ≠ [])) with
  | .error e => .error e
  | .ok segs =>
    if segs.isEmpty then .ok msgNoSegments
    else
      match sort_segments segs with
      | .error e => .error e
      | .ok sorted =>
        match render_all env none sorted with
        | .error e => .error e
        | .ok out => .ok (joinLines out)

/-- The empty environment: every lookup misses. -/
def envEmpty : Env := ⟨tzEmpty, fun _ => none, fun _ => none⟩

/-- Project the rendered text out of an assembler result. -/
def strOfResult (r : Except String PyStr) : PyStr :=
  match r with
  | .ok s => s
  | .error _ => []

/-- Project the emitted lines out of a renderer result. -/
def listOfResult (r : Except String (List PyStr)) : List PyStr :=
  match r with
  | .ok l => l
  | .error _ => []

/-!  # Theorems -/

/-- Characterization of the fuel-driven overnight loop: with enough fuel,
the result is the arrival advanced by some whole number of days, the loop
guard fails at the result, and it held at every earlier iterate. -/
theorem bump_go_spec (dep_utc off : Int) :
    ∀ (fuel : Nat) (arr : Int), (dep_utc - (arr - off)).toNat ≤ 1440 * fuel →
      ∃ n : Nat, bump_go fuel dep_utc off arr = arr + 1440 * n ∧
        ¬(arr + 1440 * n - off < dep_utc) ∧
        ∀ m : Nat, m < n → arr + 1440 * m - off < dep_utc := by
  intro fuel
  induction fuel with
  | zero =>
    intro arr hfuel
    refine ⟨0, by simp [bump_go], by omega, ?_⟩
    intro m hm; omega
  | succ fuel ih =>
    intro arr hfuel
    by_cases hg : arr - off < dep_utc
    · have hstep : (dep_utc - (arr + 1440 - off)).toNat ≤ 1440 * fuel := by omega
      obtain ⟨n, hres, hstop, hall⟩ := ih (arr + 1440) hstep
      refine ⟨n + 1, ?_, by omega, ?_⟩
      · show bump_go (fuel + 1) dep_utc off arr = _
        rw [bump_go, if_pos hg, hres]; push_cast; ring
      · intro m hm
        match m with
        | 0 => omega
        | k + 1 => have := hall k (by omega); omega
    · refine ⟨0, ?_, by omega, ?_⟩
      · show bump_go (fuel + 1) dep_utc off arr = _
        rw [bump_go, if_neg hg]; omega
      · intro m hm; omega

/-- The fuel chosen by `bump_loop` always suffices, so `bump_loop`
satisfies the loop characterization. -/
theorem bump_loop_spec (dep_utc off arr : Int) :
    ∃ n : Nat, bump_loop dep_utc off arr = arr + 1440 * n ∧
      ¬(arr + 1440 * n - off < dep_utc) ∧
      ∀ m : Nat, m < n → arr + 1440 * m - off < dep_utc := by
  apply bump_go_spec
  have := Nat.div_add_mod (dep_utc - (arr - off)).toNat 1440
  have := @Nat.mod_lt (dep_utc - (arr - off)).toNat 1440 (by omega)
  omega

/-- The loop postcondition: the corrected arrival is never before the
departure on the absolute timeline. -/
theorem bump_loop_ge (dep_utc off arr : Int) :
    dep_utc ≤ bump_loop dep_utc off arr - off := by
  obtain ⟨n, hres, hstop, -⟩ := bump_loop_spec dep_utc off arr
  omega

/-- C4: The overnight-correction loop in `parse_segment_line` terminates
for every pair of zone-localized departure and arrival instants: the
result is reached after finitely many iterations, each iteration adds one
calendar day (1440 wall minutes) to the arrival and strictly increases
the arrival's absolute (UTC) instant while the departure instant is
fixed, the guard held at every iterate before the last, and the guard
(arrival-in-UTC < departure-in-UTC) fails at the result. -/
theorem c4_overnight_loop_terminates (dep_utc off arr : Int) :
    ∃ n : Nat, bump_loop dep_utc off arr = arr + 1440 * n ∧
      ¬(arr + 1440 * n - off < dep_utc) ∧
      ∀ m : Nat, m < n →
        (arr + 1440 * m - off < dep_utc) ∧
        arr + 1440 * m - off < arr + 1440 * (m + 1) - off := by
  obtain ⟨n, hres, hstop, hall⟩ := bump_loop_spec dep_utc off arr
  exact ⟨n, hres, hstop, fun m hm => ⟨hall m hm, by omega⟩⟩

/-- C9: `plural_ru` acts on the absolute value of its count: counts with
`n % 100` in `[11, 14]` always select the "many" form; otherwise last
digit 1 selects the "one" form, last digits 2-4 the "few" form, and
everything else the "many" form. -/
theorem c9_plural_ru_selection (n : Int) (form1 form2 form5 : PyStr) :
    (11 ≤ n.natAbs % 100 ∧ n.natAbs % 100 ≤ 14 →
       plural_ru n form1 form2 form5 = form5) ∧
    (¬(11 ≤ n.natAbs % 100 ∧ n.natAbs % 100 ≤ 14) →
       (n.natAbs % 10 = 1 → plural_ru n form1 form2 form5 = form1) ∧
       (2 ≤ n.natAbs % 10 ∧ n.natAbs % 10 ≤ 4 →
          plural_ru n form1 form2 form5 = form2) ∧
       (¬n.natAbs % 10 = 1 ∧ ¬(2 ≤ n.natAbs % 10 ∧ n.natAbs % 10 ≤ 4) →
          plural_ru n form1 form2 form5 = form5)) := by
  unfold plural_ru
  constructor
  · intro h; rw [if_pos h]
  · intro h
    rw [if_neg h]
    refine ⟨fun h1 => by rw [if_pos h1], fun h2 => ?_, fun h5 => ?_⟩
    · rw [if_neg (by omega), if_pos h2]
    · rw [if_neg h5.1, if_neg h5.2]

/-- Witness for C9 at the counts 11 (many), 1 (one), 3 (few) and 7
(many). -/
theorem c9_plural_ru_selection_witness :
    plural_ru 111 (str "a") (str "b") (str "c") = str "c" ∧
    plural_ru 1 (str "a") (str "b") (str "c") = str "a" ∧
    plural_ru 3 (str "a") (str "b") (str "c") = str "b" ∧
    plural_ru 7 (str "a") (str "b") (str "c") = str "c" :=
  ⟨(c9_plural_ru_selection 111 (str "a") (str "b") (str "c")).1 (by decide),
   ((c9_plural_ru_selection 1 (str "a") (str "b") (str "c")).2 (by decide)).1 (by decide),
   ((c9_plural_ru_selection 3 (str "a") (str "b") (str "c")).2 (by decide)).2.1 (by decide),
   ((c9_plural_ru_selection 7 (str "a") (str "b") (str "c")).2 (by decide)).2.2 (by decide)⟩

/-- Elements of a sublist satisfy `all` of the larger list. -/
theorem all_of_sublist {p : α → Bool} {l₁ l₂ : List α} (hs : l₁.Sublist l₂)
    (h : l₂.all p = true) : l₁.all p = true := by
  rw [List.all_eq_true] at h ⊢
  exact fun x hx => h x (hs.subset hx)

/-- The characters kept by `takeWhile` satisfy the predicate. -/
theorem all_takeWhile (p : α → Bool) (l : List α) :
    (l.takeWhile p).all p = true := by
  induction l with
  | nil => simp
  | cons a l ih =>
    by_cases h : p a
    · simpa [List.takeWhile, h] using ih
    · simp [List.takeWhile, h]

/-- Facts about a successful single-position merged-regex attempt. -/
theorem merged_at_facts {k : Nat} {t g1 g2 : PyStr}
    (h : merged_at k t = some (g1, g2)) :
    g1.length = k ∧ g1.all isUpperAlnum = true ∧
    g2.all Char.isDigit = true ∧ g2 ≠ [] := by
  unfold merged_at at h
  split at h
  · rename_i hcond
    simp only [Bool.and_eq_true, decide_eq_true_eq, Bool.not_eq_true',
      List.isEmpty_eq_false] at hcond
    cases h
    exact ⟨hcond.1.1, hcond.1.2,
      all_of_sublist (List.take_sublist _ _) (all_takeWhile _ _), hcond.2⟩
  · exact absurd h (by simp)

/-- Facts about a successful merged-regex match (group sizes per the
`{2,3}` quantifier). -/
theorem merged_match_facts {t g1 g2 : PyStr}
    (h : merged_match t = some (g1, g2)) :
    (g1.length = 2 ∨ g1.length = 3) ∧ g1.all isUpperAlnum = true ∧
    g2.all Char.isDigit = true ∧ g2 ≠ [] := by
  unfold merged_match at h
  split at h
  · rename_i r heq
    cases h
    obtain ⟨h1, h2, h3, h4⟩ := merged_at_facts heq
    exact ⟨Or.inr h1, h2, h3, h4⟩
  · obtain ⟨h1, h2, h3, h4⟩ := merged_at_facts h
    exact ⟨Or.inl h1, h2, h3, h4⟩

/-- Facts about a successful `^(\d{1,4})` match. -/
theorem leading_digits_facts {t d : PyStr} (h : leading_digits t = some d) :
    d.all Char.isDigit = true ∧ d ≠ [] := by
  unfold leading_digits at h
  split at h
  · exact absurd h (by simp)
  · rename_i hcond
    cases h
    refine ⟨all_of_sublist (List.take_sublist _ _) (all_takeWhile _ _), ?_⟩
    simpa [List.isEmpty_eq_false] using hcond

/-- Facts about the airline/flight detection: the airline code is a
nonempty `[A-Z0-9]` string of 2 or 3 characters, the flight number is a
nonempty digit string, and the cursor is 2 (merged) or 3 (split). -/
theorem airline_flight_split_facts {t1 t2 a f : PyStr} {c : Nat}
    (h : airline_flight_split t1 t2 = some (a, f, c)) :
    (a.length = 2 ∨ a.length = 3) ∧ a.all isUpperAlnum = true ∧
    f.all Char.isDigit = true ∧ f ≠ [] ∧ (c = 2 ∨ c = 3) := by
  unfold airline_flight_split at h
  split at h
  · rename_i hcond
    simp only [Bool.and_eq_true, Bool.or_eq_true, decide_eq_true_eq] at hcond
    split at h
    · rename_i d heq
      cases h
      obtain ⟨hd1, hd2⟩ := leading_digits_facts heq
      exact ⟨hcond.1, hcond.2, hd1, hd2, Or.inr rfl⟩
    · exact absurd h (by simp)
  · exact absurd h (by simp)

/-- Facts about the airline/flight detection: the airline code is an
`[A-Z0-9]` string of 2 or 3 characters, the flight number is a nonempty
digit string, and the cursor is 2 (merged) or 3 (split). -/
theorem airline_flight_facts {t1 t2 a f : PyStr} {c : Nat}
    (h : airline_flight t1 t2 = some (a, f, c)) :
    (a.length = 2 ∨ a.length = 3) ∧ a.all isUpperAlnum = true ∧
    f.all Char.isDigit = true ∧ f ≠ [] ∧ (c = 2 ∨ c = 3) := by
  unfold airline_flight at h
  split at h
  · rename_i g1 g2 heq
    split at h
    · cases h
      obtain ⟨h1, h2, h3, h4⟩ := merged_match_facts heq
      exact ⟨h1, h2, h3, h4, Or.inl rfl⟩
    · exact airline_flight_split_facts h
  · exact airline_flight_split_facts h

/-- Facts about the date-token scan: the returned token matches the date
shape. -/
theorem find_date_go_facts {l : List PyStr} {i : Nat} {ds : PyStr} {j : Nat}
    (h : find_date_go l i = some (ds, j)) : matchDate ds = true := by
  induction l generalizing i with
  | nil => exact absurd h (by simp [find_date_go])
  | cons t rest ih =>
    unfold find_date_go at h
    split at h
    · cases h; assumption
    · exact ih h

/-- Facts about the route scan: origin and destination are 3-letter
uppercase codes. -/
theorem find_route_go_facts {l : List PyStr} {o d : PyStr}
    (h : find_route_go l = some (o, d)) :
    o.length = 3 ∧ o.all Char.isUpper = true ∧
    d.length = 3 ∧ d.all Char.isUpper = true := by
  induction l with
  | nil => exact absurd h (by simp [find_route_go])
  | cons t rest ih =>
    unfold find_route_go at h
    split at h
    · rename_i hcond
      simp only [Bool.and_eq_true, decide_eq_true_eq] at hcond
      cases h
      refine ⟨?_, ?_, ?_, ?_⟩
      · simp [List.length_take, hcond.1]
      · exact all_of_sublist (List.take_sublist _ _) hcond.2
      · simp [List.length_drop, hcond.1]
      · exact all_of_sublist (List.drop_sublist _ _) hcond.2
    · exact ih h

/-- The built-in carrier dictionary returns the empty string or one of
its four display names. -/
theorem airline_name_of_cases (a : PyStr) :
    airline_name_of a = [] ∨ airline_name_of a = str "Air Astana" ∨
    airline_name_of a = str "Lufthansa" ∨
    airline_name_of a = str "Turkish Airlines" ∨
    airline_name_of a = str "United Airlines" := by
  unfold airline_name_of
  dsimp only
  split_ifs <;> simp

/-- The structural facts guaranteed for every segment produced by
`parse_segment_line`: character classes of the identifier fields, the
date-token shape, the possible carrier names, and the decomposition of
the two local datetimes through `fix_times` over the zone lookups of the
parsed origin/destination. -/
structure SegFacts (tz : PyStr → Option Int) (s : Segment) : Prop where
  origin_len : s.origin.length = 3
  origin_upper : s.origin.all Char.isUpper = true
  dest_len : s.dest.length = 3
  dest_upper : s.dest.all Char.isUpper = true
  airline_alnum : s.airline.all isUpperAlnum = true
  flight_digits : s.flight.all Char.isDigit = true
  date_shape : matchDate s.date_str = true
  name_cases : s.airline_name = [] ∨ s.airline_name = str "Air Astana" ∨
    s.airline_name = str "Lufthansa" ∨
    s.airline_name = str "Turkish Airlines" ∨
    s.airline_name = str "United Airlines"
  locals_eq : ∃ depN arrN aoff,
    s.dep_local = (fix_times (tz s.origin) (tz s.dest) depN arrN aoff).1 ∧
    s.arr_local = (fix_times (tz s.origin) (tz s.dest) depN arrN aoff).2

/-- Every segment returned by `parse_segment_line` satisfies
`SegFacts`. -/
theorem parse_props {tz : PyStr → Option Int} {line : PyStr} {year : Int}
    {s : Segment} (h : parse_segment_line tz line year = .ok (some s)) :
    SegFacts tz s := by
  unfold parse_segment_line at h
  dsimp only at h
  split at h
  · exact absurd h (by simp)
  split at h
  · exact absurd h (by simp)
  split at h
  · exact absurd h (by simp)
  rename_i af airline flight_no cursor haf
  split at h
  · exact absurd h (by simp)
  rename_i fd date_str date_idx hfd
  split at h
  · exact absurd h (by simp)
  rename_i fr origin dest hfr
  split at h
  · exact absurd h (by simp)
  rename_i pt dep_hhmm arr_hhmm arr_offset hpt
  split at h
  · exact absurd h (by simp)
  rename_i pd base_day hpd
  split at h
  · exact absurd h (by simp)
  split at h
  · exact absurd h (by simp)
  simp only [Except.ok.injEq, Option.some.injEq] at h
  subst h
  obtain ⟨ha1, ha2, hf1, hf2, hc⟩ := airline_flight_facts haf
  have hds := find_date_go_facts hfd
  obtain ⟨ho1, ho2, hd1, hd2⟩ := find_route_go_facts hfr
  refine ⟨ho1, ho2, hd1, hd2, ha2, hf1, hds, airline_name_of_cases _, ?_⟩
  exact ⟨_, _, _, rfl, rfl⟩

/-- C3: For every Segment returned by `parse_segment_line` in which the
time zones of both the origin and the destination airports resolve via
the lookup, the arrival instant converted to UTC is greater than or equal
to the departure instant converted to UTC. -/
theorem c3_arrival_instant_ge_departure
    (tz : PyStr → Option Int) (line : PyStr) (year : Int) (s : Segment)
    (o1 o2 : Int)
    (hparse : parse_segment_line tz line year = .ok (some s))
    (ho : tz s.origin = some o1) (hd : tz s.dest = some o2) :
    instantUtc s.dep_local ≤ instantUtc s.arr_local := by
  obtain ⟨depN, arrN, aoff, hdep, harr⟩ := (parse_props hparse).locals_eq
  rw [ho, hd] at hdep harr
  simp only [fix_times] at hdep harr
  rw [hdep, harr]
  simp only [instantUtc, Option.getD_some]
  have := bump_loop_ge (depN - o1) o2 arrN
  omega

/-- A concrete two-airport zone lookup (UTC offsets in minutes) for
witnessing the aware path. -/
def tzW : PyStr → Option Int := fun a =>
  if a = str "ALA" then some 300 else if a = str "IST" then some 180 else none

/-- Witness for C3 on a line whose both endpoints resolve. -/
theorem c3_arrival_instant_ge_departure_witness :
    instantUtc (segOfResult (parse_segment_line tzW
      (str "1 TK 351 15MAR ALAIST 0635 1035") 2026)).dep_local ≤
    instantUtc (segOfResult (parse_segment_line tzW
      (str "1 TK 351 15MAR ALAIST 0635 1035") 2026)).arr_local :=
  c3_arrival_instant_ge_departure tzW (str "1 TK 351 15MAR ALAIST 0635 1035")
    2026 (segOfResult (parse_segment_line tzW
      (str "1 TK 351 15MAR ALAIST 0635 1035") 2026)) 300 180
    (by decide) (by decide) (by decide)

/-- Counterexample for C7: on a line whose arrival token carries the
explicit offset `+0` (arrival 04:35, departure 21:10, both airports
unknown to the lookup), the code still advances the arrival by one
calendar day - the segment parses with the arrival on 16MAR, not on the
15MAR wall clock the claim (no advance for an explicit `+0`) would
give. -/
theorem c7_explicit_plus_zero_advances_cex :
    parse_segment_line tzEmpty (str "1 TK 350 15MAR QQQZZZ 2110 0435+0")
      2026 =
    .ok (some { airline := str "TK", flight := str "350",
                date_str := str "15MAR", origin := str "QQQ",
                dest := str "ZZZ",
                dep_local := ⟨civilToDays 2026 3 15 * 1440 + 21 * 60 + 10, none⟩,
                arr_local := ⟨civilToDays 2026 3 16 * 1440 + 4 * 60 + 35, none⟩,
                airline_name := str "Turkish Airlines" }) := by decide

/-- The departure/arrival datetimes of every parsed segment are built by
`fix_times` from naive values determined by the parsed tokens of the
line: the first two time tokens and the day offset (via `pick_times`)
and the calendar date of the segment's own date token (via
`parse_date`).  Every existentially bound value is pinned by an equation
to a function of the line, so the decomposition is unique. -/
theorem parse_times_decomp {tz : PyStr → Option Int} {line : PyStr}
    {year : Int} {s : Segment}
    (h : parse_segment_line tz line year = .ok (some s)) :
    ∃ dep_hhmm arr_hhmm : PyStr, ∃ aoff : Nat, ∃ base_day depN arrN : Int,
      pick_times (tokenize (strip line)) = some (dep_hhmm, arr_hhmm, aoff) ∧
      parse_date s.date_str year = .ok base_day ∧
      depN = base_day * 1440 + (pyInt (dep_hhmm.take 2) : Int) * 60 +
             (pyInt (dep_hhmm.drop 2) : Int) ∧
      arrN = base_day * 1440 + (pyInt (arr_hhmm.take 2) : Int) * 60 +
             (pyInt (arr_hhmm.drop 2) : Int) + 1440 * (aoff : Int) ∧
      s.dep_local = (fix_times (tz s.origin) (tz s.dest) depN arrN aoff).1 ∧
      s.arr_local = (fix_times (tz s.origin) (tz s.dest) depN arrN aoff).2 := by
  unfold parse_segment_line at h
  dsimp only at h
  split at h
  · exact absurd h (by simp)
  split at h
  · exact absurd h (by simp)
  split at h
  · exact absurd h (by simp)
  rename_i af airline flight_no cursor haf
  split at h
  · exact absurd h (by simp)
  rename_i fd date_str date_idx hfd
  split at h
  · exact absurd h (by simp)
  rename_i fr origin dest hfr
  split at h
  · exact absurd h (by simp)
  rename_i pt dep_hhmm arr_hhmm arr_offset hpt
  split at h
  · exact absurd h (by simp)
  rename_i pd base_day hpd
  split at h
  · exact absurd h (by simp)
  split at h
  · exact absurd h (by simp)
  simp only [Except.ok.injEq, Option.some.injEq] at h
  subst h
  exact ⟨dep_hhmm, arr_hhmm, arr_offset, base_day, _, _, hpt, hpd,
    rfl, rfl, rfl, rfl⟩

/-- C7 (amended): when the zone of the origin or of the destination is
unknown, `parse_segment_line` keeps naive zone-less timestamps and
advances the arrival by exactly one calendar day when the day offset
parsed from the arrival time token equals zero - whether the `+N` suffix
was absent or an explicit `+0` - and the naive arrival (base date plus
arrival HHMM plus offset days) precedes the naive departure (base date
plus departure HHMM); for a nonzero parsed offset, or an arrival not
before the departure, the arrival is kept unchanged, and the advance is
never applied more than once.  All quantified values are pinned to the
parsed tokens of the line through `pick_times` and `parse_date`. -/
theorem c7_naive_fallback_single_advance
    (tz : PyStr → Option Int) (line : PyStr) (year : Int) (s : Segment)
    (hparse : parse_segment_line tz line year = .ok (some s))
    (hmiss : tz s.origin = none ∨ tz s.dest = none) :
    s.dep_local.off = none ∧ s.arr_local.off = none ∧
    ∃ dep_hhmm arr_hhmm : PyStr, ∃ aoff : Nat, ∃ base_day depN arrN : Int,
      pick_times (tokenize (strip line)) = some (dep_hhmm, arr_hhmm, aoff) ∧
      parse_date s.date_str year = .ok base_day ∧
      depN = base_day * 1440 + (pyInt (dep_hhmm.take 2) : Int) * 60 +
             (pyInt (dep_hhmm.drop 2) : Int) ∧
      arrN = base_day * 1440 + (pyInt (arr_hhmm.take 2) : Int) * 60 +
             (pyInt (arr_hhmm.drop 2) : Int) + 1440 * (aoff : Int) ∧
      s.dep_local.wall = depN ∧
      (aoff = 0 ∧ arrN < depN → s.arr_local.wall = arrN + 1440) ∧
      (¬(aoff = 0 ∧ arrN < depN) → s.arr_local.wall = arrN) := by
  obtain ⟨dep_hhmm, arr_hhmm, aoff, base_day, depN, arrN,
    hpt, hpd, hdepN, harrN, hdep, harr⟩ := parse_times_decomp hparse
  have hfall :
      fix_times (tz s.origin) (tz s.dest) depN arrN aoff =
        (⟨depN, none⟩,
         ⟨if aoff = 0 ∧ arrN < depN then arrN + 1440 else arrN, none⟩) := by
    rcases ho : tz s.origin with _ | o1 <;> rcases hd : tz s.dest with _ | o2
    · rfl
    · rfl
    · rfl
    · exfalso; rcases hmiss with hm | hm <;> simp_all
  rw [hfall] at hdep harr
  simp only at hdep harr
  refine ⟨by rw [hdep], by rw [harr], dep_hhmm, arr_hhmm, aoff, base_day,
    depN, arrN, hpt, hpd, hdepN, harrN, by rw [hdep], ?_, ?_⟩
  · intro hc; rw [harr]; simp [if_pos hc]
  · intro hc; rw [harr]; simp [if_neg hc]

/-- The `+0` line of the C7 counterexample and its parsed segment, used
to witness the amended claim. -/
def lineC7 : PyStr := str "1 TK 350 15MAR QQQZZZ 2110 0435+0"

/-- The segment parsed (over the empty zone lookup) from `lineC7`. -/
def segC7 : Segment := segOfResult (parse_segment_line tzEmpty lineC7 2026)

/-- Witness for C7 (amended) at the `+0` line with unknown airports:
both localized values are naive and the advance behaviour is pinned to
the values parsed from the line. -/
theorem c7_naive_fallback_single_advance_witness :
    segC7.dep_local.off = none ∧ segC7.arr_local.off = none ∧
    ∃ dep_hhmm arr_hhmm : PyStr, ∃ aoff : Nat, ∃ base_day depN arrN : Int,
      pick_times (tokenize (strip lineC7)) = some (dep_hhmm, arr_hhmm, aoff) ∧
      parse_date segC7.date_str 2026 = .ok base_day ∧
      depN = base_day * 1440 + (pyInt (dep_hhmm.take 2) : Int) * 60 +
             (pyInt (dep_hhmm.drop 2) : Int) ∧
      arrN = base_day * 1440 + (pyInt (arr_hhmm.take 2) : Int) * 60 +
             (pyInt (arr_hhmm.drop 2) : Int) + 1440 * (aoff : Int) ∧
      segC7.dep_local.wall = depN ∧
      (aoff = 0 ∧ arrN < depN → segC7.arr_local.wall = arrN + 1440) ∧
      (¬(aoff = 0 ∧ arrN < depN) → segC7.arr_local.wall = arrN) :=
  c7_naive_fallback_single_advance tzEmpty lineC7 2026 segC7
    (by decide) (Or.inl (by decide))

/-- Counterexample for C6: the token `ALAISTX` has a leading run of seven
letters, so by the claim it must not be accepted as the route token (and
this line, having no other 6-letter candidate, would be rejected); the
code accepts it and extracts origin `ALA`, destination `IST`. -/
theorem c6_seven_letter_run_accepted_cex :
    parse_segment_line tzEmpty (str "1 TK 351 15MAR ALAISTX 0635 1035")
      2026 =
    .ok (some { airline := str "TK", flight := str "351",
                date_str := str "15MAR", origin := str "ALA",
                dest := str "IST",
                dep_local := ⟨civilToDays 2026 3 15 * 1440 + 6 * 60 + 35, none⟩,
                arr_local := ⟨civilToDays 2026 3 15 * 1440 + 10 * 60 + 35, none⟩,
                airline_name := str "Turkish Airlines" }) := by decide

/-- The route scan accepts exactly the first token whose uppercased
six-character head is all letters, splitting it 3+3. -/
theorem find_route_go_first {l : List PyStr} {o d : PyStr}
    (h : find_route_go l = some (o, d)) :
    ∃ pre t post, l = pre ++ t :: post ∧
      (∀ u ∈ pre, ¬(((upper u).take 6).length = 6 ∧
                    ((upper u).take 6).all Char.isUpper = true)) ∧
      ((upper t).take 6).length = 6 ∧
      ((upper t).take 6).all Char.isUpper = true ∧
      o = ((upper t).take 6).take 3 ∧ d = ((upper t).take 6).drop 3 := by
  induction l with
  | nil => exact absurd h (by simp [find_route_go])
  | cons t rest ih =>
    unfold find_route_go at h
    split at h
    · rename_i hcond
      simp only [Bool.and_eq_true, decide_eq_true_eq] at hcond
      cases h
      exact ⟨[], t, rest, rfl, by simp, hcond.1, hcond.2, rfl, rfl⟩
    · rename_i hcond
      simp only [Bool.and_eq_true, decide_eq_true_eq, not_and] at hcond
      obtain ⟨pre, u, post, hsplit, hpre, h6, hall, ho, hd⟩ := ih h
      refine ⟨t :: pre, u, post, by simp [hsplit], ?_, h6, hall, ho, hd⟩
      intro v hv
      rcases hv with _ | hv
      · intro hc; exact hcond hc.1 hc.2
      · exact hpre v (by assumption)

/-- C6 (amended): the route extractor selects the first token strictly
after the date token whose first six characters (after uppercasing) are
letters, i.e. whose leading letter run has length at least 6; origin is
the first three of those letters and destination the next three; tokens
whose leading letter run is shorter than six are skipped. -/
theorem c6_route_first_six_letter_prefix
    (toks : List PyStr) (start : Nat) (o d : PyStr)
    (h : find_route toks start = some (o, d)) :
    ∃ pre t post, toks.drop start = pre ++ t :: post ∧
      (∀ u ∈ pre, ¬(((upper u).take 6).length = 6 ∧
                    ((upper u).take 6).all Char.isUpper = true)) ∧
      ((upper t).take 6).length = 6 ∧
      ((upper t).take 6).all Char.isUpper = true ∧
      o = ((upper t).take 6).take 3 ∧ d = ((upper t).take 6).drop 3 :=
  find_route_go_first h

/-- Witness for C6 (amended) on the noisy token `ALAIST*SS1` after a
leading non-route token. -/
theorem c6_route_first_six_letter_prefix_witness :
    ∃ pre t post,
      ([str "HK1", str "ALAIST*SS1", str "0635"].drop 0) = pre ++ t :: post ∧
      (∀ u ∈ pre, ¬(((upper u).take 6).length = 6 ∧
                    ((upper u).take 6).all Char.isUpper = true)) ∧
      ((upper t).take 6).length = 6 ∧
      ((upper t).take 6).all Char.isUpper = true ∧
      str "ALA" = ((upper t).take 6).take 3 ∧
      str "IST" = ((upper t).take 6).drop 3 :=
  c6_route_first_six_letter_prefix
    [str "HK1", str "ALAIST*SS1", str "0635"] 0 (str "ALA") (str "IST")
    (by decide)

/-- C1 (failing evaluation): on the repository's own test line
`2 TK1921 C 15MAR 7 ISTGVA HK1 1225 1340 ...`, the greedy group
`[A-Z0-9]{2,3}` of the merged regex consumes `TK1`, so the parser yields
airline `TK1` and flight `921` - not airline `TK` with the entire digit
suffix `1921` that the claim (and `test_tk_formats_parse`, which expects
`TK 1921` in the output) requires. -/
theorem c1_merged_token_greedy_mismatch :
    parse_segment_line tzEmpty
      (str "2 TK1921 C 15MAR 7 ISTGVA HK1 1225 1340 32Q E 0 M SEE RTSVC")
      2026 =
    .ok (some { airline := str "TK1", flight := str "921",
                date_str := str "15MAR", origin := str "IST",
                dest := str "GVA",
                dep_local := ⟨civilToDays 2026 3 15 * 1440 + 12 * 60 + 25, none⟩,
                arr_local := ⟨civilToDays 2026 3 15 * 1440 + 13 * 60 + 40, none⟩,
                airline_name := [] }) := by decide

/-- C2 (failing evaluation): a line whose date token has the 2-digit +
3-letter shape but an unrecognized month abbreviation (`15XXX`) makes
`parse_date` raise `ValueError("Unknown month: XXX")`, which no caller
catches: `build_itinerary` propagates the exception instead of dropping
the line and returning a string. -/
theorem c2_unknown_month_uncaught_error :
    build_itinerary envEmpty (str "1 TK 351 15XXX ALAIST 0635 1035") 2026 =
      .error "Unknown month: XXX" := by decide

/-- A digit character is not whitespace. -/
theorem digit_not_space {c : Char} (h : c.isDigit = true) :
    isSpaceChar c = false := by
  by_contra hs
  rw [Bool.not_eq_false] at hs
  simp only [isSpaceChar, Bool.or_eq_true, decide_eq_true_eq] at hs
  rcases hs with ((((rfl | rfl) | rfl) | rfl) | rfl) | rfl <;> simp_all

/-- `dropWhile` is the identity when the head fails the predicate (in
particular when no element satisfies it). -/
theorem dropWhile_id {p : α → Bool} {l : List α}
    (h : ∀ c ∈ l, p c = false) : l.dropWhile p = l := by
  cases l with
  | nil => rfl
  | cons a l => simp [List.dropWhile, h a (by simp)]

/-- `strip` is the identity on whitespace-free strings. -/
theorem strip_id {s : PyStr} (h : ∀ c ∈ s, isSpaceChar c = false) :
    strip s = s := by
  unfold strip
  rw [dropWhile_id h, dropWhile_id (fun c hc => h c (by simpa using hc)),
    List.reverse_reverse]

/-- The filtered time list ignores a prefix with no time tokens. -/
theorem filter_times_of_no_time {pre : List PyStr}
    (hpre : ∀ t ∈ pre, matchTime (strip t) = false) (tl : List PyStr) :
    ((pre ++ tl).map strip).filter matchTime = (tl.map strip).filter matchTime := by
  induction pre with
  | nil => rfl
  | cons t pre ih =>
    simp only [List.cons_append, List.map_cons, List.filter_cons,
      hpre t (by simp)]
    exact ih (fun u hu => hpre u (by simp [hu]))

/-- C10: `pick_times` accepts a `+N` day-offset suffix on the first
matched (departure) time token: a departure token `HHMM+N` still matches
`TIME_RE` and never causes rejection; only its first four digits are kept
as the departure time (the offset digits are discarded, the result does
not depend on `k`), and the returned day offset comes solely from the
second (arrival) time token via `split_arr`. -/
theorem c10_departure_offset_discarded
    (pre rest : List PyStr) (d k arr : PyStr)
    (hpre : ∀ t ∈ pre, matchTime (strip t) = false)
    (hd4 : d.length = 4) (hdd : d.all Char.isDigit = true)
    (hk : k ≠ []) (hkd : k.all Char.isDigit = true)
    (harr : matchTime (strip arr) = true) :
    pick_times (pre ++ (d ++ '+' :: k) :: arr :: rest) =
      some (d, (split_arr (strip arr)).1.take 4, (split_arr (strip arr)).2) := by
  have hds : ∀ c ∈ d ++ '+' :: k, isSpaceChar c = false := by
    intro c hc
    rcases List.mem_append.1 hc with hcd | hck
    · exact digit_not_space (by simpa using (List.all_eq_true.1 hdd) c hcd)
    · rcases hck with _ | hck
      · decide
      · exact digit_not_space
          (by simpa using (List.all_eq_true.1 hkd) c (by assumption))
  have hstr : strip (d ++ '+' :: k) = d ++ '+' :: k := strip_id hds
  have htake : (d ++ '+' :: k).take 4 = d := by
    rw [← hd4, List.take_left]
  have hdrop : (d ++ '+' :: k).drop 4 = '+' :: k := by
    rw [← hd4, List.drop_left]
  have hmt : matchTime (d ++ '+' :: k) = true := by
    unfold matchTime
    rw [htake, hdrop]
    simp [hd4, hdd, hkd, hk]
  unfold pick_times
  rw [filter_times_of_no_time hpre]
  simp only [List.map_cons, List.filter_cons, hstr, hmt, harr]
  simp [htake]

/-- Witness for C10: the departure token `1125+1` parses, its `+1` is
discarded, and the offset comes from the arrival token `1530` (none). -/
theorem c10_departure_offset_discarded_witness :
    pick_times [str "1125" ++ '+' :: ['1'], str "1530"] =
      some (str "1125", (split_arr (strip (str "1530"))).1.take 4,
            (split_arr (strip (str "1530"))).2) :=
  c10_departure_offset_discarded [] [] (str "1125") ['1'] (str "1530")
    (by simp) (by decide) (by decide) (by decide) (by decide) (by decide)

/-- A successful `dtSub` is the difference of absolute instants. -/
theorem dtSub_ok {a b : PyDT} {v : Int} (h : dtSub a b = .ok v) :
    v = instantUtc a - instantUtc b := by
  unfold dtSub at h
  split at h
  · cases h; rfl
  · exact absurd h (by simp)

/-- C5: in the assembler loop of `build_itinerary`, the lines emitted for
a segment `s` after a previous arrival `pa` (= the preceding segment's
`arr_local`) contain a layover line if and only if the departure instant
of `s` is strictly greater than `pa`: a strictly positive gap yields the
layover line followed by the segment line, a zero or negative gap yields
the segment line alone. -/
theorem c5_layover_iff_positive_gap
    (env : Env) (pa : PyDT) (s : Segment) (out : List PyStr)
    (h : render_entry env (some pa) s = .ok out) :
    (instantUtc pa < instantUtc s.dep_local →
       out = [layover_line (instantUtc s.dep_local - instantUtc pa),
              segment_line env s
                (instantUtc s.arr_local - instantUtc s.dep_local)]) ∧
    (¬instantUtc pa < instantUtc s.dep_local →
       out = [segment_line env s
                (instantUtc s.arr_local - instantUtc s.dep_local)]) := by
  simp only [render_entry] at h
  split at h
  · exact absurd h (by simp)
  rename_i lay hlay
  split at h
  · exact absurd h (by simp)
  rename_i dur hdur
  simp only [Except.ok.injEq] at h
  subst h
  rw [dtSub_ok hlay, dtSub_ok hdur]
  constructor
  · intro hgap
    rw [if_pos (by omega)]
    rfl
  · intro hgap
    rw [if_neg (by omega)]
    rfl

/-- A concrete naive segment for witnessing the assembler-loop claims. -/
def segW : Segment :=
  { airline := str "KC", flight := str "921", date_str := str "15FEB",
    origin := str "NQZ", dest := str "FRA",
    dep_local := ⟨1000, none⟩, arr_local := ⟨1100, none⟩,
    airline_name := str "Air Astana" }

/-- Witness for C5: a previous arrival 100 minutes before the departure
of `segW` emits the layover line followed by the segment line. -/
theorem c5_layover_iff_positive_gap_witness :
    listOfResult (render_entry envEmpty (some ⟨900, none⟩) segW) =
      [layover_line (instantUtc segW.dep_local -
                     instantUtc (⟨900, none⟩ : PyDT)),
       segment_line envEmpty segW
         (instantUtc segW.arr_local - instantUtc segW.dep_local)] :=
  (c5_layover_iff_positive_gap envEmpty ⟨900, none⟩ segW
      (listOfResult (render_entry envEmpty (some ⟨900, none⟩) segW))
      (by decide)).1 (by decide)

/-!  ## Character-class lemmas for the idempotence claim -/

/-- `str.upper` fixes digits. -/
theorem digit_toUpper_fix {c : Char} (h : c.isDigit = true) :
    c.toUpper = c := by
  simp only [Char.isDigit, Bool.and_eq_true, decide_eq_true_eq] at h
  obtain ⟨h1, h2⟩ := h
  have g1 : (48 : Nat) ≤ c.toNat := h1
  have g2 : c.toNat ≤ (57 : Nat) := h2
  simp only [Char.toUpper]
  rw [if_neg]
  omega

/-- `str.upper` fixes uppercase letters. -/
theorem upper_toUpper_fix {c : Char} (h : c.isUpper = true) :
    c.toUpper = c := by
  simp only [Char.isUpper, Bool.and_eq_true, decide_eq_true_eq] at h
  obtain ⟨h1, h2⟩ := h
  have g1 : (65 : Nat) ≤ c.toNat := h1
  have g2 : c.toNat ≤ (90 : Nat) := h2
  simp only [Char.toUpper]
  rw [if_neg]
  omega

/-- An uppercase letter is not whitespace. -/
theorem upper_not_space {c : Char} (h : c.isUpper = true) :
    isSpaceChar c = false := by
  by_contra hs
  rw [Bool.not_eq_false] at hs
  simp only [isSpaceChar, Bool.or_eq_true, decide_eq_true_eq] at hs
  rcases hs with ((((rfl | rfl) | rfl) | rfl) | rfl) | rfl <;> simp_all

/-- A digit is not a line break. -/
theorem digit_not_break {c : Char} (h : c.isDigit = true) :
    isLineBreak c = false := by
  by_contra hs
  rw [Bool.not_eq_false] at hs
  simp only [isLineBreak, Bool.or_eq_true, decide_eq_true_eq] at hs
  rcases hs with ((((((((rfl | rfl) | rfl) | rfl) | rfl) | rfl) | rfl) | rfl) | rfl) | rfl <;>
    simp_all

/-- An uppercase letter is not a line break. -/
theorem upper_not_break {c : Char} (h : c.isUpper = true) :
    isLineBreak c = false := by
  by_contra hs
  rw [Bool.not_eq_false] at hs
  simp only [isLineBreak, Bool.or_eq_true, decide_eq_true_eq] at hs
  rcases hs with ((((((((rfl | rfl) | rfl) | rfl) | rfl) | rfl) | rfl) | rfl) | rfl) | rfl <;>
    simp_all

/-- The decimal digit characters are digits. -/
theorem digitChar_isDigit {n : Nat} (h : n < 10) :
    (Nat.digitChar n).isDigit = true := by
  interval_cases n <;> decide

/-- Every character rendered by `natStrGo` is a digit. -/
theorem natStrGo_digits (fuel n : Nat) :
    (natStrGo fuel n).all Char.isDigit = true := by
  induction fuel generalizing n with
  | zero =>
    cases n with
    | zero => decide
    | succ m => simp [natStrGo]
  | succ fuel ih =>
    cases n with
    | zero => simp [natStrGo]
    | succ m =>
      show (if m + 1 < 10 then [Nat.digitChar (m + 1)]
            else natStrGo fuel ((m + 1) / 10) ++
                 [Nat.digitChar ((m + 1) % 10)]).all Char.isDigit = true
      split
      · rename_i hlt
        simp [digitChar_isDigit hlt]
      · rename_i hge
        simp only [List.all_append]
        rw [ih]
        simp [digitChar_isDigit (Nat.mod_lt _ (by omega))]

/-- Every character rendered by `natStr` is a digit. -/
theorem natStr_digits (n : Nat) : (natStr n).all Char.isDigit = true :=
  natStrGo_digits n n

/-- No character of the string is a Python line break. -/
def breakfree (l : PyStr) : Prop := ∀ c ∈ l, isLineBreak c = false

instance (l : PyStr) : Decidable (breakfree l) :=
  List.decidableBAll (fun c => isLineBreak c = false) l

theorem breakfree_append {a b : PyStr} (ha : breakfree a) (hb : breakfree b) :
    breakfree (a ++ b) := by
  intro c hc
  rcases List.mem_append.1 hc with h | h
  · exact ha c h
  · exact hb c h

theorem breakfree_cons {c : Char} {l : PyStr} (hc : isLineBreak c = false)
    (hl : breakfree l) : breakfree (c :: l) := by
  intro x hx
  rcases hx with _ | hx
  · exact hc
  · exact hl x (by assumption)

theorem breakfree_of_digits {l : PyStr} (h : l.all Char.isDigit = true) :
    breakfree l :=
  fun c hc => digit_not_break (List.all_eq_true.1 h c hc)

theorem breakfree_of_upper {l : PyStr} (h : l.all Char.isUpper = true) :
    breakfree l :=
  fun c hc => upper_not_break (List.all_eq_true.1 h c hc)

/-- A map whose function fixes every element is the identity. -/
theorem map_id_of_fix {f : α → α} {l : List α} (h : ∀ c ∈ l, f c = c) :
    l.map f = l := by
  induction l with
  | nil => rfl
  | cons a l ih =>
    rw [List.map_cons, h a (by simp), ih (fun c hc => h c (by simp [hc]))]

/-- `upper` fixes strings of uppercase letters. -/
theorem upper_fix_of_upper {l : PyStr} (h : l.all Char.isUpper = true) :
    upper l = l :=
  map_id_of_fix (fun c hc => upper_toUpper_fix (List.all_eq_true.1 h c hc))

/-- An element of `intersperse` is the separator or one of the pieces. -/
theorem mem_intersperse {sep a : List α} [DecidableEq α] :
    ∀ {xs : List (List α)}, a ∈ xs.intersperse sep → a = sep ∨ a ∈ xs
  | [], h => by simp at h
  | [x], h => by
    simp [List.intersperse] at h
    simp [h]
  | x :: y :: t, h => by
    simp only [List.intersperse, List.mem_cons] at h
    rcases h with rfl | rfl | h
    · right; simp
    · left; rfl
    · rcases mem_intersperse h with rfl | hm
      · left; rfl
      · right; exact List.mem_cons_of_mem x hm

/-- `intercalate` of break-free pieces with a break-free separator is
break-free. -/
theorem breakfree_intercalate {sep : PyStr} {xs : List PyStr}
    (hsep : breakfree sep) (hxs : ∀ x ∈ xs, breakfree x) :
    breakfree (List.intercalate sep xs) := by
  intro c hc
  rw [List.intercalate] at hc
  rw [List.mem_join] at hc
  obtain ⟨l, hl, hcl⟩ := hc
  rcases mem_intersperse hl with rfl | hl
  · exact hsep c hcl
  · exact hxs l hl c hcl

/-- `plural_ru` returns one of its three form arguments. -/
theorem plural_ru_mem (n : Int) (a b c : PyStr) :
    plural_ru n a b c = a ∨ plural_ru n a b c = b ∨ plural_ru n a b c = c := by
  unfold plural_ru
  dsimp only
  split_ifs <;> simp

theorem breakfree_plural_ru (n : Int) {a b c : PyStr} (ha : breakfree a)
    (hb : breakfree b) (hc : breakfree c) : breakfree (plural_ru n a b c) := by
  rcases plural_ru_mem n a b c with h | h | h <;> rw [h] <;> assumption

theorem breakfree_natStr (n : Nat) : breakfree (natStr n) :=
  breakfree_of_digits (natStr_digits n)

theorem breakfree_pad2 (n : Nat) : breakfree (pad2 n) := by
  unfold pad2
  split
  · exact breakfree_cons (by decide) (breakfree_natStr n)
  · exact breakfree_natStr n

theorem breakfree_fmtHM (d : PyDT) : breakfree (fmtHM d) :=
  breakfree_append (breakfree_pad2 _)
    (breakfree_cons (by decide) (breakfree_pad2 _))

theorem breakfree_human_duration (td : Int) :
    breakfree (human_duration td) := by
  unfold human_duration
  dsimp only
  apply breakfree_intercalate (by decide)
  intro x hx
  rcases List.mem_append.1 hx with h | h <;> split at h <;> simp at h <;>
    rw [h] <;>
    exact breakfree_append (breakfree_natStr _)
      (breakfree_cons (by decide)
        (breakfree_plural_ru _ (by decide) (by decide) (by decide)))

set_option maxHeartbeats 1000000 in
theorem breakfree_ru_month {mon : PyStr} (h : breakfree mon) :
    breakfree (ru_month mon) := by
  unfold ru_month
  repeat' split
  all_goals first | exact h | decide

theorem breakfree_format_date_ru {ds : PyStr} (h : matchDate ds = true) :
    breakfree (format_date_ru ds) := by
  unfold matchDate at h
  simp only [Bool.and_eq_true, decide_eq_true_eq] at h
  obtain ⟨⟨hlen, hdig⟩, hupp⟩ := h
  have hmem : ∀ c ∈ ds, c ∈ ds.take 2 ∨ c ∈ ds.drop 2 := by
    intro c hc
    rw [← List.take_append_drop 2 ds] at hc
    exact List.mem_append.1 hc
  have hns : ∀ c ∈ ds, isSpaceChar c = false := by
    intro c hc
    rcases hmem c hc with hx | hx
    · exact digit_not_space (List.all_eq_true.1 hdig c hx)
    · exact upper_not_space (List.all_eq_true.1 hupp c hx)
  have hfix : ∀ c ∈ ds, c.toUpper = c := by
    intro c hc
    rcases hmem c hc with hx | hx
    · exact digit_toUpper_fix (List.all_eq_true.1 hdig c hx)
    · exact upper_toUpper_fix (List.all_eq_true.1 hupp c hx)
  unfold format_date_ru upper
  rw [strip_id hns, map_id_of_fix hfix]
  apply breakfree_append
  · intro c hc
    exact digit_not_break (List.all_eq_true.1 hdig c
      ((List.dropWhile_sublist _).subset hc))
  · apply breakfree_cons (by decide)
    apply breakfree_ru_month
    rw [map_id_of_fix (fun c hc =>
      upper_toUpper_fix (List.all_eq_true.1 hupp c hc))]
    exact fun c hc => upper_not_break (List.all_eq_true.1 hupp c hc)

theorem breakfree_place {env : Env} {i : PyStr}
    (hru : ∀ a v, env.ru a = some v → breakfree v)
    (hcity : ∀ a v, env.city a = some v → breakfree v)
    (hi : i.all Char.isUpper = true) :
    breakfree (place_for_iata env i) := by
  unfold place_for_iata
  rw [upper_fix_of_upper hi]
  have hbi : breakfree i := breakfree_of_upper hi
  rcases hr : env.ru i with _ | ov
  · rcases hc : env.city i with _ | cty
    · exact hbi
    · show breakfree (if cty ≠ [] then cty else i)
      split
      · exact hcity i cty hc
      · exact hbi
  · show breakfree (if ov ≠ [] then ov else
        match env.city i with
        | some c => if c ≠ [] then c else i
        | none => i)
    split
    · exact hru i ov hr
    · rcases hc : env.city i with _ | cty
      · exact hbi
      · show breakfree (if cty ≠ [] then cty else i)
        split
        · exact hcity i cty hc
        · exact hbi

/-- An `[A-Z0-9]` character is not a line break. -/
theorem alnum_not_break {c : Char} (h : isUpperAlnum c = true) :
    isLineBreak c = false := by
  simp only [isUpperAlnum, Bool.or_eq_true] at h
  rcases h with hu | hd
  · exact upper_not_break hu
  · exact digit_not_break hd

theorem breakfree_airline_name {s : Segment} {tz : PyStr → Option Int}
    (hf : SegFacts tz s) : breakfree s.airline_name := by
  rcases hf.name_cases with h | h | h | h | h <;> rw [h] <;> decide

section

attribute [local irreducible] format_date_ru fmtHM place_for_iata
  human_duration

theorem breakfree_segment_line {tz : PyStr → Option Int} {env : Env}
    {s : Segment} (dur : Int) (hf : SegFacts tz s)
    (hru : ∀ a v, env.ru a = some v → breakfree v)
    (hcity : ∀ a v, env.city a = some v → breakfree v) :
    breakfree (segment_line env s dur) := by
  unfold segment_line
  repeat' apply breakfree_append
  all_goals first
    | decide
    | exact breakfree_format_date_ru hf.date_shape
    | exact breakfree_fmtHM _
    | exact breakfree_cons (by decide) (breakfree_fmtHM _)
    | exact breakfree_place hru hcity hf.origin_upper
    | exact breakfree_place hru hcity hf.dest_upper
    | exact fun c hc =>
        alnum_not_break (List.all_eq_true.1 hf.airline_alnum c hc)
    | exact breakfree_cons (by decide) (fun c hc =>
        digit_not_break (List.all_eq_true.1 hf.flight_digits c hc))
    | exact breakfree_human_duration _
    | (split <;> first
        | exact breakfree_append (by decide) (breakfree_airline_name hf)
        | decide)

end

theorem breakfree_layover_line (lay : Int) : breakfree (layover_line lay) :=
  breakfree_append (breakfree_append (by decide)
    (breakfree_human_duration lay)) (by decide)

/-- A line whose first character is neither whitespace nor a digit fails
the eligibility regex. -/
theorem matchSegStart_false_of_head (l : PyStr) {c : Char}
    (hh : l.head? = some c) (hs : isSpaceChar c = false)
    (hd : c.isDigit = false) : matchSegStart l = false := by
  cases l with
  | nil => simp at hh
  | cons a t =>
    simp only [List.head?_cons, Option.some.injEq] at hh
    subst hh
    unfold matchSegStart
    simp [List.dropWhile, List.takeWhile, hs, hd]

/-- The conjunction of facts needed of every emitted line: break-free
(so joining and re-splitting is lossless), ineligible for the segment
regex, and nonempty. -/
def line_ok (l : PyStr) : Prop :=
  breakfree l ∧ matchSegStart l = false ∧ l ≠ []

theorem line_ok_segment_line {tz : PyStr → Option Int} {env : Env}
    {s : Segment} (dur : Int) (hf : SegFacts tz s)
    (hru : ∀ a v, env.ru a = some v → breakfree v)
    (hcity : ∀ a v, env.city a = some v → breakfree v) :
    line_ok (segment_line env s dur) :=
  ⟨breakfree_segment_line dur hf hru hcity,
   matchSegStart_false_of_head (segment_line env s dur) rfl
     (by decide) (by decide),
   by unfold segment_line str; simp⟩

theorem line_ok_layover_line (lay : Int) : line_ok (layover_line lay) :=
  ⟨breakfree_layover_line lay,
   matchSegStart_false_of_head (layover_line lay) rfl
     (by decide) (by decide),
   by unfold layover_line str; simp⟩

theorem line_ok_msg : line_ok msgNoSegments :=
  ⟨by decide, by decide, by decide⟩

/-- Every segment collected by `collect_segments` satisfies
`SegFacts`. -/
theorem collect_segments_facts {tz : PyStr → Option Int} {year : Int} :
    ∀ {lines : List PyStr} {segs : List Segment},
      collect_segments tz year lines = .ok segs → ∀ s ∈ segs, SegFacts tz s
  | [], segs, h => by
    unfold collect_segments at h
    simp only [Except.ok.injEq] at h
    subst h
    simp
  | l :: rest, segs, h => by
    unfold collect_segments at h
    split at h
    · exact absurd h (by simp)
    rename_i seg hparse
    split at h
    · exact absurd h (by simp)
    rename_i tail htail
    split at h
    · simp only [Except.ok.injEq] at h
      subst h
      intro s hs
      rcases hs with _ | hs
      · exact parse_props hparse
      · exact collect_segments_facts htail s (by assumption)
    · simp only [Except.ok.injEq] at h
      subst h
      exact collect_segments_facts htail

/-- The entry emitted for one segment is nonempty (it always ends with
the segment's own line). -/
theorem render_entry_ne_nil {env : Env} {prev : Option PyDT} {s : Segment}
    {ls : List PyStr} (h : render_entry env prev s = .ok ls) : ls ≠ [] := by
  unfold render_entry at h
  split at h
  · split at h
    · exact absurd h (by simp)
    · simp only [Except.ok.injEq] at h
      subst h
      simp
  · split at h
    · exact absurd h (by simp)
    split at h
    · exact absurd h (by simp)
    simp only [Except.ok.injEq] at h
    subst h
    simp

/-- Every line emitted for one segment satisfies `line_ok`. -/
theorem render_entry_line_ok {tz : PyStr → Option Int} {env : Env}
    {prev : Option PyDT} {s : Segment} {ls : List PyStr}
    (hf : SegFacts tz s)
    (hru : ∀ a v, env.ru a = some v → breakfree v)
    (hcity : ∀ a v, env.city a = some v → breakfree v)
    (h : render_entry env prev s = .ok ls) : ∀ l ∈ ls, line_ok l := by
  unfold render_entry at h
  split at h
  · split at h
    · exact absurd h (by simp)
    · simp only [Except.ok.injEq] at h
      subst h
      intro l hl
      rw [List.mem_singleton] at hl
      subst hl
      exact line_ok_segment_line _ hf hru hcity
  · split at h
    · exact absurd h (by simp)
    split at h
    · exact absurd h (by simp)
    simp only [Except.ok.injEq] at h
    subst h
    intro l hl
    rcases List.mem_append.1 hl with hp | hp
    · split at hp
      · rw [List.mem_singleton] at hp
        subst hp
        exact line_ok_layover_line _
      · cases hp
    · rw [List.mem_singleton] at hp
      subst hp
      exact line_ok_segment_line _ hf hru hcity

/-- Every line emitted by the assembler loop satisfies `line_ok`. -/
theorem render_all_line_ok {tz : PyStr → Option Int} {env : Env}
    (hru : ∀ a v, env.ru a = some v → breakfree v)
    (hcity : ∀ a v, env.city a = some v → breakfree v) :
    ∀ {prev : Option PyDT} {segs : List Segment} {out : List PyStr},
      (∀ s ∈ segs, SegFacts tz s) → render_all env prev segs = .ok out →
      ∀ l ∈ out, line_ok l
  | prev, [], out, _, h => by
    unfold render_all at h
    simp only [Except.ok.injEq] at h
    subst h
    simp
  | prev, s :: rest, out, hf, h => by
    unfold render_all at h
    split at h
    · exact absurd h (by simp)
    rename_i entry hentry
    split at h
    · exact absurd h (by simp)
    rename_i r hrest
    simp only [Except.ok.injEq] at h
    subst h
    intro l hl
    rcases List.mem_append.1 hl with hp | hp
    · exact render_entry_line_ok (hf s (by simp)) hru hcity hentry l hp
    · exact render_all_line_ok hru hcity
        (fun x hx => hf x (by simp [hx])) hrest l hp

/-- The assembler loop emits at least one line for a nonempty segment
list. -/
theorem render_all_ne_nil {env : Env} {prev : Option PyDT} {s : Segment}
    {rest : List Segment} {out : List PyStr}
    (h : render_all env prev (s :: rest) = .ok out) : out ≠ [] := by
  unfold render_all at h
  split at h
  · exact absurd h (by simp)
  rename_i entry hentry
  split at h
  · exact absurd h (by simp)
  simp only [Except.ok.injEq] at h
  subst h
  intro hc
  exact render_entry_ne_nil hentry (List.append_eq_nil.1 hc).1

/-- Membership through stable insertion. -/
theorem mem_insert_by_dep {s a : Segment} :
    ∀ {t : List Segment}, s ∈ insert_by_dep a t → s = a ∨ s ∈ t
  | [], h => by
    rw [insert_by_dep, List.mem_singleton] at h
    exact Or.inl h
  | b :: t, h => by
    rw [insert_by_dep] at h
    split at h
    · rcases List.mem_cons.1 h with rfl | h2
      · exact Or.inr (by simp)
      · rcases mem_insert_by_dep h2 with rfl | h3
        · exact Or.inl rfl
        · exact Or.inr (List.mem_cons_of_mem b h3)
    · rcases List.mem_cons.1 h with rfl | h2
      · exact Or.inl rfl
      · exact Or.inr h2

/-- Stable insertion adds one to the length. -/
theorem length_insert_by_dep (a : Segment) :
    ∀ (t : List Segment), (insert_by_dep a t).length = t.length + 1
  | [] => rfl
  | b :: t => by
    rw [insert_by_dep]
    split
    · simp [length_insert_by_dep a t]
    · simp

/-- The insertion sort is membership- and length-preserving. -/
theorem sort_by_dep_mem_length (l : List Segment) :
    (∀ s ∈ sort_by_dep l, s ∈ l) ∧ (sort_by_dep l).length = l.length := by
  unfold sort_by_dep
  suffices h : ∀ (l acc : List Segment),
      (∀ s ∈ l.foldl (fun acc s => insert_by_dep s acc) acc,
        s ∈ l ∨ s ∈ acc) ∧
      (l.foldl (fun acc s => insert_by_dep s acc) acc).length =
        l.length + acc.length by
    obtain ⟨h1, h2⟩ := h l []
    refine ⟨fun s hs => ?_, by simpa using h2⟩
    rcases h1 s hs with hm | hm
    · exact hm
    · cases hm
  intro l
  induction l with
  | nil => intro acc; simp
  | cons a t ih =>
    intro acc
    obtain ⟨ih1, ih2⟩ := ih (insert_by_dep a acc)
    refine ⟨fun s hs => ?_, ?_⟩
    · rcases ih1 s hs with hm | hm
      · exact Or.inl (List.mem_cons_of_mem a hm)
      · rcases mem_insert_by_dep hm with rfl | hm2
        · exact Or.inl (by simp)
        · exact Or.inr hm2
    · rw [List.foldl_cons, ih2, length_insert_by_dep]
      simp only [List.length_cons]
      omega

/-- A successful sort is a permutation-preserving reordering. -/
theorem sort_segments_mem {segs sorted : List Segment}
    (h : sort_segments segs = .ok sorted) :
    (∀ s ∈ sorted, s ∈ segs) ∧ sorted.length = segs.length := by
  unfold sort_segments at h
  split at h
  · exact absurd h (by simp)
  · simp only [Except.ok.injEq] at h
    subst h
    exact sort_by_dep_mem_length segs

/-- A newline flushes the accumulated line. -/
theorem splitLinesGo_newline (rest acc : PyStr) :
    splitLinesGo ('\n' :: rest) acc = acc.reverse :: splitLinesGo rest [] :=
  rfl

set_option maxHeartbeats 1000000 in
/-- A non-break character is accumulated. -/
theorem splitLinesGo_cons {c : Char} (rest acc : PyStr)
    (h : isLineBreak c = false) :
    splitLinesGo (c :: rest) acc = splitLinesGo rest (c :: acc) := by
  have hr : c ≠ '\r' := by rintro rfl; simp [isLineBreak] at h
  rcases rest with _ | ⟨c2, rest2⟩
  · rw [splitLinesGo.eq_def]
    simp [h]
  · rw [splitLinesGo.eq_def]
    split
    · simp_all
    · rename_i heq
      exfalso
      injection heq with h1 h2
      exact hr h1
    · rename_i x y heq
      injection heq with h1 h2
      subst h1
      subst h2
      simp [h]

/-- Splitting a break-free string yields the string itself (preceded by
a pending accumulator). -/
theorem splitLinesGo_no_break {l : PyStr} :
    ∀ (acc : PyStr), breakfree l →
      splitLinesGo l acc =
        if acc.reverse ++ l = [] then [] else [acc.reverse ++ l] := by
  induction l with
  | nil =>
    intro acc _
    rw [splitLinesGo.eq_def]
    rcases acc with _ | ⟨c, a⟩ <;> simp
  | cons c t ih =>
    intro acc h
    rw [splitLinesGo_cons t acc (h c (by simp))]
    rw [ih (c :: acc) (fun x hx => h x (by simp [hx]))]
    simp

/-- Splitting a nonempty break-free line is the singleton. -/
theorem splitLines_single {l : PyStr} (h : breakfree l) (hne : l ≠ []) :
    splitLines l = [l] := by
  unfold splitLines
  rw [splitLinesGo_no_break [] h]
  simp [hne]

/-- Splitting at the first newline after a break-free prefix. -/
theorem splitLinesGo_break_at_newline {t : PyStr} :
    ∀ {l : PyStr} (acc : PyStr), breakfree l →
      splitLinesGo (l ++ '\n' :: t) acc =
        (acc.reverse ++ l) :: splitLinesGo t [] := by
  intro l
  induction l with
  | nil =>
    intro acc _
    rw [List.nil_append, splitLinesGo_newline]
    simp
  | cons c u ih =>
    intro acc h
    rw [List.cons_append, splitLinesGo_cons _ acc (h c (by simp))]
    rw [ih (c :: acc) (fun x hx => h x (by simp [hx]))]
    simp

/-- Joining the emitted lines with newlines and re-splitting restores
exactly the lines, provided each line is break-free and nonempty. -/
theorem splitLines_joinLines :
    ∀ (ls : List PyStr), ls ≠ [] → (∀ l ∈ ls, breakfree l ∧ l ≠ []) →
      splitLines (joinLines ls) = ls
  | [], h, _ => absurd rfl h
  | [l], _, hok => by
    rw [joinLines]
    exact splitLines_single (hok l (by simp)).1 (hok l (by simp)).2
  | l :: l2 :: t, _, hok => by
    show splitLines (l ++ '\n' :: joinLines (l2 :: t)) = _
    unfold splitLines
    rw [splitLinesGo_break_at_newline [] (hok l (by simp)).1]
    rw [List.reverse_nil, List.nil_append]
    have := splitLines_joinLines (l2 :: t) (by simp)
      (fun x hx => hok x (by simp [hx]))
    unfold splitLines at this
    rw [this]

/-- A line failing the eligibility regex is rejected before any other
work. -/
theorem parse_ineligible {tz : PyStr → Option Int} {l : PyStr} {year : Int}
    (h : matchSegStart l = false) :
    parse_segment_line tz l year = .ok none := by
  unfold parse_segment_line
  rw [if_pos h]

/-- No eligible line means no collected segment and no exception. -/
theorem collect_ineligible {tz : PyStr → Option Int} {year : Int} :
    ∀ {lines : List PyStr}, (∀ l ∈ lines, matchSegStart l = false) →
      collect_segments tz year lines = .ok []
  | [], _ => rfl
  | l :: rest, h => by
    unfold collect_segments
    rw [parse_ineligible (h l (by simp))]
    rw [collect_ineligible (fun x hx => h x (by simp [hx]))]

/-- A text none of whose lines is eligible assembles to the dedicated
no-segments message. -/
theorem build_ineligible {env : Env} {text : PyStr} {year : Int}
    (h : ∀ l ∈ splitLines text, matchSegStart l = false) :
    build_itinerary env text year = .ok msgNoSegments := by
  unfold build_itinerary
  rw [collect_ineligible
    (fun l hl => h l (List.mem_of_mem_filter hl))]
  rfl

/-- C8: no line of the string returned by `build_itinerary` (segment
lines, layover lines, or the no-segments message) satisfies the
eligibility rule `SEGMENT_START_RE` of beginning with an integer followed
by whitespace; consequently re-running `build_itinerary` on its own
rendered output recognizes zero segments and returns the dedicated
no-segments message.  The hypotheses state that the external display-name
lookups contain no line-break characters (true of the airport/override
tables, which hold city names). -/
theorem c8_output_not_reparseable
    (env : Env) (text : PyStr) (year : Int) (out : PyStr)
    (hru : ∀ a v, env.ru a = some v → breakfree v)
    (hcity : ∀ a v, env.city a = some v → breakfree v)
    (hbuild : build_itinerary env text year = .ok out) :
    (∀ l ∈ splitLines out, matchSegStart l = false) ∧
    build_itinerary env out year = .ok msgNoSegments := by
  unfold build_itinerary at hbuild
  split at hbuild
  · exact absurd hbuild (by simp)
  rename_i segs hcollect
  split at hbuild
  · rename_i hempty
    simp only [Except.ok.injEq] at hbuild
    subst hbuild
    have h1 : ∀ l ∈ splitLines msgNoSegments, matchSegStart l = false := by
      decide
    exact ⟨h1, build_ineligible h1⟩
  · rename_i hempty
    split at hbuild
    · exact absurd hbuild (by simp)
    rename_i sorted hsort
    split at hbuild
    · exact absurd hbuild (by simp)
    rename_i rendered hrender
    simp only [Except.ok.injEq] at hbuild
    subst hbuild
    have hfacts : ∀ s ∈ segs, SegFacts env.tz s :=
      collect_segments_facts hcollect
    have hsortfacts : ∀ s ∈ sorted, SegFacts env.tz s :=
      fun s hs => hfacts s ((sort_segments_mem hsort).1 s hs)
    have hlines : ∀ l ∈ rendered, line_ok l :=
      render_all_line_ok hru hcity hsortfacts hrender
    have hne : rendered ≠ [] := by
      rcases hs : sorted with _ | ⟨s0, srest⟩
      · exfalso
        have hlen := (sort_segments_mem hsort).2
        rw [hs] at hlen
        simp only [List.length_nil] at hlen
        exact hempty (List.isEmpty_iff.2 (List.length_eq_zero.1 hlen.symm))
      · rw [hs] at hrender
        exact render_all_ne_nil hrender
    have hsplit : splitLines (joinLines rendered) = rendered :=
      splitLines_joinLines rendered hne
        (fun l hl => ⟨(hlines l hl).1, (hlines l hl).2.2⟩)
    have h1 : ∀ l ∈ splitLines (joinLines rendered),
        matchSegStart l = false := by
      rw [hsplit]
      intro l hl
      exact (hlines l hl).2.1
    exact ⟨h1, build_ineligible h1⟩

/-- Witness for C8: re-running the assembler on the rendered output of a
one-segment input returns the no-segments message. -/
theorem c8_output_not_reparseable_witness :
    build_itinerary envEmpty
      (strOfResult (build_itinerary envEmpty
        (str "1 KC 921 15FEB NQZFRA 1125 1530") 2026)) 2026 =
      .ok msgNoSegments :=
  (c8_output_not_reparseable envEmpty
    (str "1 KC 921 15FEB NQZFRA 1125 1530") 2026
    (strOfResult (build_itinerary envEmpty
      (str "1 KC 921 15FEB NQZFRA 1125 1530") 2026))
    (fun a v h => nomatch h) (fun a v h => nomatch h) (by decide)).2
